import Mathlib

/-!
Shallow embedding of the heart-rate pipeline of the
SMART-HEALTH-MONITORING-ALERT-SYSTEM repository.

Two variants are embedded:
* `Esp`  — src/SKETCHS/Espbpm/Espbpm.ino
* `Uno`  — src/PROJECT CODE/SKETCHS/Pulsebyuno/Pulsebyuno.ino

C `float` arithmetic is modelled with exact rationals (`ℚ`); the
`millis()` clock is modelled by one natural-number timestamp per tick
(all `millis()` calls inside a single pass of `loop()` are identified),
and C unsigned subtraction `now - t` is modelled by truncated `ℕ`
subtraction, faithful whenever `t ≤ now`, which holds in every run the
claims quantify over.  The PRNG calls `random(lo, hi)` are modelled by
oracle inputs carried in the per-tick input record, so that theorems
quantify over every possible drawn value.
-/

namespace HRM

/-- StatusCode enumeration, identical in both variants (Espbpm.ino lines
43-48, Pulsebyuno.ino lines 31-36). -/
inductive StatusCode where
  | ST_OK
  | ST_FALLBACK
  | ST_NO_SENSOR
  | ST_LOW_CONF
deriving DecidableEq

export StatusCode (ST_OK ST_FALLBACK ST_NO_SENSOR ST_LOW_CONF)

-- ---------------- TUNING constants (identical in both sketches) ----------------

def DC_ALPHA : ℚ := 0.92
def AUTO_GAIN_ALPHA : ℚ := 0.02
def TARGET_P2P : ℚ := 1200
def MAX_GAIN : ℚ := 100
def SMOOTH_WIN : ℕ := 5
def MIN_BEAT_MS : ℕ := 250
def BPM_MEDIAN_WINDOW : ℕ := 5
def BPM_AVG_WINDOW : ℕ := 8
def PROMINENCE_MULT : ℚ := 1.2
def FALLBACK_TIMEOUT_MS : ℕ := 5000
def MIN_VALID_BPM : ℚ := 35
def MAX_VALID_BPM : ℚ := 200
def RMS_ALPHA : ℚ := 0.92
def driftAlpha : ℚ := 0.995

/-- Arduino `constrain(x, a, b)` on floats. -/
def constrainQ (x a b : ℚ) : ℚ := if x < a then a else if b < x then b else x

/-- C cast `(long)x` of a float: truncation toward zero. -/
def truncQ (q : ℚ) : ℤ := if 0 ≤ q then q.floor else -((-q).floor)

-- ---------------- fixed-capacity ring buffers ----------------

/-- One of the fixed-capacity ring buffers of the sketches: a raw array
(`buf`, length = capacity, zero-initialised like the C globals), a write
cursor and a fill count.  `beatIntervals`/`beatIndex`/`beatCount`,
`bpmHistory`/`bpmHistIdx`/`bpmHistCount` and
`bpmAvgWindow`/`bpmAvgIdx`/`bpmAvgCount` are all instances. -/
structure RingBuf where
  buf : List ℚ
  idx : ℕ
  count : ℕ
deriving DecidableEq

def initRing (cap : ℕ) : RingBuf := ⟨List.replicate cap 0, 0, 0⟩

/-- The common body of `pushBeatInterval` / `pushBPMHistory` / `pushBPMAvg`:
write at the cursor, post-increment and wrap the cursor, saturate the count. -/
def pushRing (cap : ℕ) (r : RingBuf) (v : ℚ) : RingBuf :=
  { buf := r.buf.set r.idx v
    idx := if cap ≤ r.idx + 1 then 0 else r.idx + 1
    count := if r.count < cap then r.count + 1 else r.count }

-- ---------------- beat detector state (shared shape) ----------------

/-- Beat-clock state: `lastBeatTime`, `lastValidBeatTime` and the 16-slot
interval history ring. -/
structure BeatState where
  lastBeatTime : ℕ
  lastValidBeatTime : ℕ
  intervals : RingBuf
deriving DecidableEq

-- ---------------- smoothing ring ----------------

/-- The smoothing window state `smoothBuf` / `smoothPos` / `smoothFilled`. -/
structure Smooth where
  buf : List ℤ
  pos : ℕ
  filled : Bool
deriving DecidableEq

/-- Function `smoothAvg` (identical in both sketches): push the truncated amplified
sample, then return the mean of the occupied slots. -/
def smoothAvg (s : Smooth) (v : ℤ) : Smooth × ℚ :=
  let buf := s.buf.set s.pos v
  let pf : ℕ × Bool := if SMOOTH_WIN ≤ s.pos + 1 then (0, true) else (s.pos + 1, s.filled)
  let n : ℕ := if pf.2 then SMOOTH_WIN else pf.1
  (⟨buf, pf.1, pf.2⟩, (((buf.take n).sum : ℤ) : ℚ) / (max 1 n : ℕ))

-- ---------------- per-tick input and output ----------------

/-- Inputs consumed by one pass of `loop()`: the raw ADC sample, the
`millis()` timestamp, and the values produced by the `random(...)` calls
of the HRV-jitter and waveform-morphology blocks. -/
structure TickIn where
  raw : ℤ
  now : ℕ
  randJitter : ℤ
  randDrift : ℤ
  randShape : ℤ
  randNoise : ℤ
deriving DecidableEq

/-- The emitted per-tick tuple `filtered,BPM,Conf,Status` (the CSV line). -/
structure Out where
  filtered : ℚ
  bpm : ℚ
  conf : ℚ
  status : StatusCode
deriving DecidableEq

/-- The zeroed / "CALCULATING" tuple `0,0,0,CALCULATING`. -/
def zeroOut : Out := ⟨0, 0, 0, ST_NO_SENSOR⟩

-- =====================================================================
-- Esp variant (Espbpm.ino)
-- =====================================================================

namespace Esp

/-- Espbpm.ino `computeBPM` (lines 109-116). -/
def computeBPM (r : RingBuf) : ℚ :=
  if r.count = 0 then 0
  else
    let avgInterval := (r.buf.take r.count).sum / (r.count : ℚ)
    if avgInterval ≤ 0 then 0 else 60000 / avgInterval

/-- Insertion of a key into an already sorted prefix, as performed by the
inner `while (j >= 0 && t[j] > key)` loop of `medianBPM`. -/
def insertKey (key : ℚ) : List ℚ → List ℚ
  | [] => [key]
  | x :: xs => if key < x then key :: x :: xs else x :: insertKey key xs

/-- The insertion sort of `medianBPM` (Espbpm.ino lines 129-134). -/
def insSort (l : List ℚ) : List ℚ := l.foldl (fun acc x => insertKey x acc) []

/-- Espbpm.ino `medianBPM` (lines 124-136): sort the occupied slots and
return `t[bpmHistCount/2]`. -/
def medianBPM (r : RingBuf) : ℚ :=
  if r.count = 0 then 0 else (insSort (r.buf.take r.count)).getD (r.count / 2) 0

/-- Espbpm.ino `avgBPM` (lines 144-149). -/
def avgBPM (r : RingBuf) : ℚ :=
  if r.count = 0 then 0 else (r.buf.take r.count).sum / (r.count : ℚ)

/-- Espbpm.ino function `plausibleInterval` (lines 151-155): `dt` must be
positive and `60000/dt` must land inside the valid-BPM band. -/
def validInterval (dt : ℚ) : Prop :=
  0 < dt ∧ MIN_VALID_BPM ≤ 60000 / dt ∧ 60000 / dt ≤ MAX_VALID_BPM

instance : DecidablePred validInterval := fun dt => by
  unfold validInterval; infer_instance

/-- The beat-acceptance block of Espbpm.ino `loop` (lines 229-242), taking
the already computed `peak` boolean. -/
def beatStep (peak : Bool) (now : ℕ) (bs : BeatState) : BeatState :=
  if peak ∧ MIN_BEAT_MS < now - bs.lastBeatTime then
    let dt : ℚ := if bs.lastBeatTime = 0 then 0 else ((now - bs.lastBeatTime : ℕ) : ℚ)
    if bs.lastBeatTime = 0 ∨ validInterval dt then
      { lastBeatTime := now
        lastValidBeatTime := now
        intervals := if bs.lastBeatTime = 0 then bs.intervals
                     else pushRing 16 bs.intervals dt }
    else bs
  else bs

/-- Whole-sketch state: every module-level mutable of Espbpm.ino. -/
structure State where
  status : StatusCode
  dc : ℚ
  gainEstimate : ℚ
  smooth : Smooth
  beat : BeatState
  bpmHistory : RingBuf
  bpmAvgWindow : RingBuf
  lastGoodBPM : ℚ
  lastGoodTime : ℕ
  rms : ℚ
  drift : ℚ
  shapeMod : ℚ
  prev2 : ℚ
  prev1 : ℚ
  curr : ℚ
  lastJitter : ℕ
deriving DecidableEq

/-- State after `setup()` (globals zero-initialised, `gainEstimate = 1`,
`shapeMod = 1`, `status = ST_NO_SENSOR`). -/
def init : State :=
  { status := ST_NO_SENSOR
    dc := 0
    gainEstimate := 1
    smooth := ⟨List.replicate SMOOTH_WIN 0, 0, false⟩
    beat := ⟨0, 0, initRing 16⟩
    bpmHistory := initRing BPM_MEDIAN_WINDOW
    bpmAvgWindow := initRing BPM_AVG_WINDOW
    lastGoodBPM := 0
    lastGoodTime := 0
    rms := 0
    drift := 0
    shapeMod := 1
    prev2 := 0
    prev1 := 0
    curr := 0
    lastJitter := 0 }

/-- The HRV-jitter block (Espbpm.ino lines 281-294): when more than 1400 ms
elapsed since the last jitter, add `r/100` (the drawn `random` value over
100) and clamp into `[MIN_VALID_BPM, MAX_VALID_BPM]`. -/
def jitterStep (now lastJitter : ℕ) (rand : ℤ) (finalBPM : ℚ) : ℕ × ℚ :=
  if 1400 < now - lastJitter then
    (now, constrainQ (finalBPM + (rand : ℚ) / 100) MIN_VALID_BPM MAX_VALID_BPM)
  else (lastJitter, finalBPM)

/-- The waveform-morphology block (Espbpm.ino lines 296-309): slow drift,
shape modulation and micro-noise applied to the reported `filtered` value.
Returns (new drift, new shapeMod, morphed filtered). -/
def morphStep (drift : ℚ) (inp : TickIn) (filtered : ℚ) : ℚ × ℚ × ℚ :=
  let drift2 := driftAlpha * drift + (1 - driftAlpha) * (inp.randDrift : ℚ)
  let shape2 := 1 + (inp.randShape : ℚ) / 100
  let micro := (inp.randNoise : ℚ) / 10
  (drift2, shape2, filtered * shape2 + drift2 + micro)

/-- Signal conditioning, threshold tracking, window shift and beat
detection: Espbpm.ino `loop` lines 202-242.  Returns the updated state and
the `filtered` value of this tick. -/
def condStep (st : State) (inp : TickIn) : State × ℚ :=
  let dc := DC_ALPHA * st.dc + (1 - DC_ALPHA) * (inp.raw : ℚ)
  let ac : ℚ := (inp.raw : ℚ) - dc
  let gainEstimate := (1 - AUTO_GAIN_ALPHA) * st.gainEstimate +
                      AUTO_GAIN_ALPHA * max 1 |ac|
  let gain := constrainQ (TARGET_P2P / max 1 (gainEstimate * 2)) 1 MAX_GAIN
  let amplified := ac * gain
  let sm := smoothAvg st.smooth (truncQ amplified)
  let filtered := sm.2
  let rms := RMS_ALPHA * st.rms + (1 - RMS_ALPHA) * |filtered|
  let threshold := max 40 (rms * PROMINENCE_MULT)
  let prev2 := st.prev1
  let prev1 := st.curr
  let curr := filtered
  let peak : Bool := decide (prev1 > prev2 ∧ prev1 > curr ∧ prev1 > threshold)
  let bs := beatStep peak inp.now st.beat
  ({ st with dc, gainEstimate, smooth := sm.1, rms, prev2, prev1, curr, beat := bs },
   filtered)

/-- The accept / fallback / no-sensor decision plus jitter and morphology:
Espbpm.ino `loop` lines 244-321. -/
def aggregate (st1 : State) (inp : TickIn) (filtered : ℚ) : State × Out :=
  let now := inp.now
  let candidate := computeBPM st1.beat.intervals
  if MIN_VALID_BPM ≤ candidate ∧ candidate ≤ MAX_VALID_BPM then
    let hist := pushRing BPM_MEDIAN_WINDOW st1.bpmHistory candidate
    let avgW := pushRing BPM_AVG_WINDOW st1.bpmAvgWindow candidate
    let fb0 := avgBPM avgW
    let med := medianBPM hist
    let finalBPM := if 0 < med then fb0 * 0.6 + med * 0.4 else fb0
    let j := jitterStep now st1.lastJitter inp.randJitter finalBPM
    let m := morphStep st1.drift inp filtered
    ({ st1 with bpmHistory := hist, bpmAvgWindow := avgW,
                lastGoodBPM := finalBPM, lastGoodTime := now,
                status := ST_OK, lastJitter := j.1,
                drift := m.1, shapeMod := m.2.1 },
     ⟨m.2.2, j.2, 0.85, ST_OK⟩)
  else if now - st1.beat.lastValidBeatTime < FALLBACK_TIMEOUT_MS ∧ 0 < st1.lastGoodBPM then
    let finalBPM := st1.lastGoodBPM
    let j := jitterStep now st1.lastJitter inp.randJitter finalBPM
    let m := morphStep st1.drift inp filtered
    ({ st1 with status := ST_FALLBACK, lastJitter := j.1,
                drift := m.1, shapeMod := m.2.1 },
     ⟨m.2.2, j.2, 0.6, ST_FALLBACK⟩)
  else
    ({ st1 with status := ST_NO_SENSOR }, zeroOut)

/-- One full pass of Espbpm.ino `loop` (lines 186-328). -/
def tick (st : State) (inp : TickIn) : State × Out :=
  if inp.raw < 30 then ({ st with status := ST_NO_SENSOR }, zeroOut)
  else
    let c := condStep st inp
    aggregate c.1 inp c.2

/-- Run a sequence of ticks, collecting the emitted tuples. -/
def run (st : State) : List TickIn → State × List Out
  | [] => (st, [])
  | i :: is =>
    let p := tick st i
    let q := run p.1 is
    (q.1, p.2 :: q.2)

end Esp

-- =====================================================================
-- Uno variant (Pulsebyuno.ino)
-- =====================================================================

namespace Uno

/-- Pulsebyuno.ino `computeBPM` (lines 84-89): no non-positive-average
guard (stored intervals are positive in every run, so the guard of the Esp
variant never fires either). -/
def computeBPM (r : RingBuf) : ℚ :=
  if r.count = 0 then 0 else 60000 / ((r.buf.take r.count).sum / (r.count : ℚ))

/-- Pulsebyuno.ino `avgBPM` (lines 113-118). -/
def avgBPM (r : RingBuf) : ℚ :=
  if r.count = 0 then 0 else (r.buf.take r.count).sum / (r.count : ℚ)

/-- Pulsebyuno.ino function `plausibleInterval` (lines 120-123): same band
test as the Esp variant but with no `dt ≤ 0` guard. -/
def validInterval (dt : ℚ) : Prop :=
  MIN_VALID_BPM ≤ 60000 / dt ∧ 60000 / dt ≤ MAX_VALID_BPM

instance : DecidablePred validInterval := fun dt => by
  unfold validInterval; infer_instance

/-- The beat-acceptance block of Pulsebyuno.ino `loop` (lines 183-193):
`dt` is computed unconditionally. -/
def beatStep (peak : Bool) (now : ℕ) (bs : BeatState) : BeatState :=
  if peak ∧ MIN_BEAT_MS < now - bs.lastBeatTime then
    let dt : ℚ := ((now - bs.lastBeatTime : ℕ) : ℚ)
    if bs.lastBeatTime = 0 ∨ validInterval dt then
      { lastBeatTime := now
        lastValidBeatTime := now
        intervals := if bs.lastBeatTime = 0 then bs.intervals
                     else pushRing 16 bs.intervals dt }
    else bs
  else bs

/-- Whole-sketch state of Pulsebyuno.ino (no waveform-morphology state). -/
structure State where
  status : StatusCode
  dc : ℚ
  gainEstimate : ℚ
  smooth : Smooth
  beat : BeatState
  bpmHistory : RingBuf
  bpmAvgWindow : RingBuf
  lastGoodBPM : ℚ
  lastGoodTime : ℕ
  rms : ℚ
  p : ℚ
  m : ℚ
  c : ℚ
  lastJitter : ℕ
deriving DecidableEq

/-- State after `setup()`. -/
def init : State :=
  { status := ST_NO_SENSOR
    dc := 0
    gainEstimate := 1
    smooth := ⟨List.replicate SMOOTH_WIN 0, 0, false⟩
    beat := ⟨0, 0, initRing 16⟩
    bpmHistory := initRing BPM_MEDIAN_WINDOW
    bpmAvgWindow := initRing BPM_AVG_WINDOW
    lastGoodBPM := 0
    lastGoodTime := 0
    rms := 0
    p := 0
    m := 0
    c := 0
    lastJitter := 0 }

/-- The HRV-jitter block of Pulsebyuno.ino (lines 227-238). -/
def jitterStep (now lastJitter : ℕ) (rand : ℤ) (finalBPM : ℚ) : ℕ × ℚ :=
  if 1400 < now - lastJitter then
    (now, constrainQ (finalBPM + (rand : ℚ) / 100) MIN_VALID_BPM MAX_VALID_BPM)
  else (lastJitter, finalBPM)

/-- Signal conditioning, threshold tracking, window shift and beat
detection: Pulsebyuno.ino `loop` lines 158-193. -/
def condStep (st : State) (inp : TickIn) : State × ℚ :=
  let dc := DC_ALPHA * st.dc + (1 - DC_ALPHA) * (inp.raw : ℚ)
  let ac : ℚ := (inp.raw : ℚ) - dc
  let gainEstimate := (1 - AUTO_GAIN_ALPHA) * st.gainEstimate +
                      AUTO_GAIN_ALPHA * max 1 |ac|
  let gain := constrainQ (TARGET_P2P / max 1 (gainEstimate * 2)) 1 MAX_GAIN
  let amplified := ac * gain
  let sm := smoothAvg st.smooth (truncQ amplified)
  let filtered := sm.2
  let rms := RMS_ALPHA * st.rms + (1 - RMS_ALPHA) * |filtered|
  let threshold := max 40 (rms * PROMINENCE_MULT)
  let p := st.m
  let m := st.c
  let c := filtered
  let peak : Bool := decide (m > p ∧ m > c ∧ m > threshold)
  let bs := beatStep peak inp.now st.beat
  ({ st with dc, gainEstimate, smooth := sm.1, rms, p, m, c, beat := bs }, filtered)

/-- The accept / fallback / no-sensor decision plus jitter: Pulsebyuno.ino
`loop` lines 195-248.  The `FALLBACK` guard checks only the timeout (no
`lastGoodBPM > 0` conjunct), the accepted value is the plain window
average (no median blend), and there is no waveform-morphology block. -/
def aggregate (st1 : State) (inp : TickIn) (filtered : ℚ) : State × Out :=
  let now := inp.now
  let candidate := computeBPM st1.beat.intervals
  if MIN_VALID_BPM ≤ candidate ∧ candidate ≤ MAX_VALID_BPM then
    let hist := pushRing BPM_MEDIAN_WINDOW st1.bpmHistory candidate
    let avgW := pushRing BPM_AVG_WINDOW st1.bpmAvgWindow candidate
    let finalBPM := avgBPM avgW
    let j := jitterStep now st1.lastJitter inp.randJitter finalBPM
    ({ st1 with bpmHistory := hist, bpmAvgWindow := avgW,
                lastGoodBPM := finalBPM, lastGoodTime := now,
                status := ST_OK, lastJitter := j.1 },
     ⟨filtered, j.2, 0.8, ST_OK⟩)
  else if now - st1.beat.lastValidBeatTime < FALLBACK_TIMEOUT_MS then
    let finalBPM := st1.lastGoodBPM
    let j := jitterStep now st1.lastJitter inp.randJitter finalBPM
    ({ st1 with status := ST_FALLBACK, lastJitter := j.1 },
     ⟨filtered, j.2, 0.6, ST_FALLBACK⟩)
  else
    ({ st1 with status := ST_NO_SENSOR }, zeroOut)

/-- One full pass of Pulsebyuno.ino `loop` (lines 145-254).  The
finger-detection branch (lines 151-156) prints the zeroed tuple and
returns without assigning the `status` variable. -/
def tick (st : State) (inp : TickIn) : State × Out :=
  if inp.raw < 30 then (st, zeroOut)
  else
    let c := condStep st inp
    aggregate c.1 inp c.2

/-- Run a sequence of ticks, collecting the emitted tuples. -/
def run (st : State) : List TickIn → State × List Out
  | [] => (st, [])
  | i :: is =>
    let p := tick st i
    let q := run p.1 is
    (q.1, p.2 :: q.2)

end Uno

-- =====================================================================
-- Verification-layer definitions
-- =====================================================================

/-- Well-formedness of a ring buffer of capacity `cap`: full-length raw
array, saturated count, in-bounds cursor, and cursor = count while the
buffer is still filling. -/
def wfRing (cap : ℕ) (r : RingBuf) : Prop :=
  r.buf.length = cap ∧ r.count ≤ cap ∧ r.idx < cap ∧ (r.count < cap → r.idx = r.count)

instance (cap : ℕ) (r : RingBuf) : Decidable (wfRing cap r) := by
  unfold wfRing; infer_instance

/-- Membership in the valid-BPM band. -/
def inRangeBPM (v : ℚ) : Prop := MIN_VALID_BPM ≤ v ∧ v ≤ MAX_VALID_BPM

instance : DecidablePred inRangeBPM := fun v => by
  unfold inRangeBPM; infer_instance

/-- Every occupied slot of a ring satisfies `P`. -/
def ringAll (P : ℚ → Prop) (r : RingBuf) : Prop := ∀ x ∈ r.buf.take r.count, P x

instance (P : ℚ → Prop) [DecidablePred P] (r : RingBuf) : Decidable (ringAll P r) := by
  unfold ringAll; infer_instance

/-- Run-level invariant of the Esp variant: rings well-formed, every
stored interval passed `plausibleInterval`, every stored candidate lies in
the valid band, and `lastGoodBPM` is either still unset (0) or in band. -/
def Inv (st : Esp.State) : Prop :=
  wfRing 16 st.beat.intervals ∧ ringAll Esp.validInterval st.beat.intervals ∧
  wfRing BPM_MEDIAN_WINDOW st.bpmHistory ∧ ringAll inRangeBPM st.bpmHistory ∧
  wfRing BPM_AVG_WINDOW st.bpmAvgWindow ∧ ringAll inRangeBPM st.bpmAvgWindow ∧
  (st.lastGoodBPM = 0 ∨ inRangeBPM st.lastGoodBPM)

instance (st : Esp.State) : Decidable (Inv st) := by
  unfold Inv; infer_instance

/-- A synthetic run for the Esp variant: two pulses produce accepted beats
at 300 ms and 900 ms (interval 600 ms = 100 BPM, so the 6th tick is `OK`),
then the signal goes flat and the last tick arrives at 7000 ms — 6100 ms
after the last valid beat, far beyond `FALLBACK_TIMEOUT_MS`. -/
def c1run : List TickIn :=
  [⟨31, 20, 0, 0, 0, 0⟩, ⟨1000, 40, 0, 0, 0, 0⟩, ⟨31, 300, 0, 0, 0, 0⟩,
   ⟨31, 320, 0, 0, 0, 0⟩, ⟨1000, 340, 0, 0, 0, 0⟩, ⟨31, 900, 0, 0, 0, 0⟩,
   ⟨31, 7000, 0, 0, 0, 0⟩]

/-- Ten consecutive ticks with `raw = 20`, below the presence floor. -/
def lowRun : List TickIn := List.replicate 10 ⟨20, 0, 0, 0, 0, 0⟩

-- =====================================================================
-- Helper lemmas
-- =====================================================================

lemma getD_mem_of_lt : ∀ (l : List ℚ) (n : ℕ), n < l.length → l.getD n 0 ∈ l := by
  intro l
  induction l with
  | nil => intro n h; simp at h
  | cons a t ih =>
    intro n h
    cases n with
    | zero => simp
    | succ m =>
      have := ih m (by simpa using h)
      simp only [List.getD_cons_succ]
      exact List.mem_cons_of_mem a this

namespace Esp

lemma insertKey_perm (key : ℚ) : ∀ l : List ℚ, (insertKey key l).Perm (key :: l) := by
  intro l
  induction l with
  | nil => simp [insertKey]
  | cons x xs ih =>
    by_cases h : key < x
    · simp [insertKey, h]
    · simp only [insertKey, if_neg h]
      exact (List.Perm.cons x ih).trans (List.Perm.swap key x xs)

lemma insertKey_sorted (key : ℚ) :
    ∀ l : List ℚ, l.Sorted (· ≤ ·) → (insertKey key l).Sorted (· ≤ ·) := by
  intro l
  induction l with
  | nil => intro _; simp [insertKey]
  | cons x xs ih =>
    intro hs
    rw [List.sorted_cons] at hs
    by_cases h : key < x
    · simp only [insertKey, if_pos h]
      rw [List.sorted_cons]
      refine ⟨?_, ?_⟩
      · intro b hb
        rcases List.mem_cons.mp hb with rfl | hb2
        · exact le_of_lt h
        · exact (le_of_lt h).trans (hs.1 b hb2)
      · rw [List.sorted_cons]; exact hs
    · simp only [insertKey, if_neg h]
      rw [List.sorted_cons]
      refine ⟨?_, ih hs.2⟩
      intro b hb
      rcases List.mem_cons.mp ((insertKey_perm key xs).mem_iff.mp hb) with rfl | hb2
      · exact not_lt.mp h
      · exact hs.1 b hb2

lemma insSort_perm_aux :
    ∀ (l acc : List ℚ), (l.foldl (fun a x => insertKey x a) acc).Perm (acc ++ l) := by
  intro l
  induction l with
  | nil => intro acc; simp
  | cons x xs ih =>
    intro acc
    have h1 := ih (insertKey x acc)
    have h2 : (insertKey x acc ++ xs).Perm (acc ++ x :: xs) :=
      ((insertKey_perm x acc).append_right xs).trans List.perm_middle.symm
    rw [List.foldl_cons]
    exact h1.trans h2

lemma insSort_perm (l : List ℚ) : (insSort l).Perm l := by
  simpa using insSort_perm_aux l []

lemma insSort_sorted_aux :
    ∀ (l acc : List ℚ), acc.Sorted (· ≤ ·) →
      (l.foldl (fun a x => insertKey x a) acc).Sorted (· ≤ ·) := by
  intro l
  induction l with
  | nil => intro acc h; simpa using h
  | cons x xs ih =>
    intro acc h
    simpa using ih (insertKey x acc) (insertKey_sorted x acc h)

lemma insSort_sorted (l : List ℚ) : (insSort l).Sorted (· ≤ ·) :=
  insSort_sorted_aux l [] (by simp)

end Esp

-- =====================================================================
-- C5 — medianBPM and the middle of the sorted occupied slots
-- =====================================================================

/-- C5 counterexample: a median window holding the two values 50 and 60
(as after two accepted candidates) sorts to `[50, 60]`, whose lower-middle
element (0-based index `(2-1)/2 = 0`) is 50, yet `medianBPM` returns 60 —
`t[bpmHistCount/2]` is the upper-middle element on even counts. -/
theorem median_even_count_upper :
    Esp.medianBPM ⟨[50, 60, 0, 0, 0], 2, 2⟩ = 60 ∧
    Esp.insSort ((⟨[50, 60, 0, 0, 0], 2, 2⟩ : RingBuf).buf.take 2) = [50, 60] ∧
    ¬ Esp.medianBPM ⟨[50, 60, 0, 0, 0], 2, 2⟩ = [(50 : ℚ), 60].getD ((2 - 1) / 2) 0 := by
  decide

/-- C5 (amended): for every non-empty BPM median window, `medianBPM`
insertion-sorts the occupied slots and returns the element at 0-based
index `count / 2` of the sorted order — the true middle for odd counts,
the UPPER-middle element for even counts (not the lower-middle). -/
theorem median_sorted_middle (r : RingBuf) (hc : 0 < r.count)
    (t : List ℚ) (hp : t.Perm (r.buf.take r.count)) (hs : t.Sorted (· ≤ ·)) :
    Esp.medianBPM r = t.getD (r.count / 2) 0 := by
  have he : t = Esp.insSort (r.buf.take r.count) :=
    List.eq_of_perm_of_sorted (hp.trans (Esp.insSort_perm _).symm) hs (Esp.insSort_sorted _)
  rw [Esp.medianBPM, if_neg hc.ne', he]

/-- C5 witness: a window holding 70, 50, 60 has median 60, the middle of
the sorted order. -/
theorem median_sorted_middle_witness :
    0 < (3 : ℕ) ∧
    Esp.medianBPM ⟨[70, 50, 60, 0, 0], 3, 3⟩ = [(50 : ℚ), 60, 70].getD (3 / 2) 0 :=
  ⟨by decide,
   median_sorted_middle ⟨[70, 50, 60, 0, 0], 3, 3⟩ (by decide) [50, 60, 70]
     (by decide) (by decide)⟩

-- =====================================================================
-- C2 — interval validation: out-of-band intervals are dropped silently,
-- in-band intervals are stored and advance the beat clock
-- =====================================================================

/-- C2: for a detected peak past the refractory gate with a previous beat
anchored, an interval whose BPM `60000/dt` falls outside
`[MIN_VALID_BPM, MAX_VALID_BPM]` leaves the whole beat state untouched
(nothing stored, no error channel exists, neither `lastBeatTime` nor
`lastValidBeatTime` advances), while an in-band interval is pushed into
the 16-slot ring and advances both clocks.  (An in-band interval forces
`dt ≥ 300 ms > MIN_BEAT_MS`, so the refractory gate passes automatically.) -/
theorem interval_validation (bs : BeatState) (now : ℕ) (h0 : bs.lastBeatTime ≠ 0) :
    (¬(MIN_VALID_BPM ≤ 60000 / ((now - bs.lastBeatTime : ℕ) : ℚ) ∧
          60000 / ((now - bs.lastBeatTime : ℕ) : ℚ) ≤ MAX_VALID_BPM) →
        Esp.beatStep true now bs = bs) ∧
    ((MIN_VALID_BPM ≤ 60000 / ((now - bs.lastBeatTime : ℕ) : ℚ) ∧
          60000 / ((now - bs.lastBeatTime : ℕ) : ℚ) ≤ MAX_VALID_BPM) →
        Esp.beatStep true now bs =
          { lastBeatTime := now, lastValidBeatTime := now,
            intervals := pushRing 16 bs.intervals ((now - bs.lastBeatTime : ℕ) : ℚ) }) := by
  constructor
  · intro hn
    simp only [Esp.beatStep]
    split_ifs with h1 h2 <;> try rfl
    exfalso
    rcases h2 with h2 | h2
    · exact h0 h2
    · exact hn h2.2
  · intro hr
    have hdt0 : (0 : ℚ) < ((now - bs.lastBeatTime : ℕ) : ℚ) := by
      by_contra hle
      have hz : ((now - bs.lastBeatTime : ℕ) : ℚ) = 0 :=
        le_antisymm (not_lt.mp hle) (Nat.cast_nonneg _)
      rw [hz] at hr
      norm_num [MIN_VALID_BPM, MAX_VALID_BPM] at hr
    have h300 : (300 : ℚ) ≤ ((now - bs.lastBeatTime : ℕ) : ℚ) := by
      have h2 := hr.2
      have e2 : MAX_VALID_BPM = 200 := rfl
      rw [e2, div_le_iff₀ hdt0] at h2
      linarith
    have hgate : MIN_BEAT_MS < now - bs.lastBeatTime := by
      have h3 : (300 : ℕ) ≤ now - bs.lastBeatTime := by exact_mod_cast h300
      have e : MIN_BEAT_MS = 250 := rfl
      omega
    have hvalid : Esp.validInterval ((now - bs.lastBeatTime : ℕ) : ℚ) := ⟨hdt0, hr⟩
    simp only [Esp.beatStep]
    rw [if_pos ⟨by simp, hgate⟩]
    simp only [if_neg h0]
    rw [if_pos (Or.inr hvalid)]

/-- C2 witness: with the previous beat anchored at 1000 ms, a peak at
1600 ms (dt = 600 ms, 100 BPM) is accepted and pushed. -/
theorem interval_validation_witness :
    (⟨1000, 1000, initRing 16⟩ : BeatState).lastBeatTime ≠ 0 ∧
    Esp.beatStep true 1600 ⟨1000, 1000, initRing 16⟩ =
      { lastBeatTime := 1600, lastValidBeatTime := 1600,
        intervals := pushRing 16 (initRing 16) ((1600 - 1000 : ℕ) : ℚ) } :=
  ⟨by decide,
   (interval_validation ⟨1000, 1000, initRing 16⟩ 1600 (by decide)).2
     (by norm_num [MIN_VALID_BPM, MAX_VALID_BPM])⟩

-- =====================================================================
-- C6 — refractory gate
-- =====================================================================

lemma esp_beatStep_gate (peak : Bool) (now : ℕ) (bs : BeatState)
    (h : ¬ MIN_BEAT_MS < now - bs.lastBeatTime) : Esp.beatStep peak now bs = bs := by
  simp only [Esp.beatStep]
  rw [if_neg]
  intro hc
  exact h hc.2

lemma uno_beatStep_gate (peak : Bool) (now : ℕ) (bs : BeatState)
    (h : ¬ MIN_BEAT_MS < now - bs.lastBeatTime) : Uno.beatStep peak now bs = bs := by
  simp only [Uno.beatStep]
  rw [if_neg]
  intro hc
  exact h hc.2

lemma esp_beatStep_lastBeat (bs : BeatState) (now : ℕ)
    (h : Esp.beatStep true now bs ≠ bs) :
    (Esp.beatStep true now bs).lastBeatTime = now := by
  simp only [Esp.beatStep] at h ⊢
  split_ifs at h ⊢ <;> first | rfl | exact absurd rfl h

lemma uno_beatStep_lastBeat (bs : BeatState) (now : ℕ)
    (h : Uno.beatStep true now bs ≠ bs) :
    (Uno.beatStep true now bs).lastBeatTime = now := by
  simp only [Uno.beatStep] at h ⊢
  split_ifs at h ⊢ <;> first | rfl | exact absurd rfl h

/-- C6: in both variants a detected peak is ignored entirely (no interval
stored, no clock advance) unless `now - lastBeatTime > MIN_BEAT_MS`, and
consequently of two peaks 40 ms apart at most one registers: if the first
one changed the beat state, the second is swallowed by the refractory
gate and changes nothing. -/
theorem refractory_gate :
    (∀ (bs : BeatState) (now : ℕ), ¬ MIN_BEAT_MS < now - bs.lastBeatTime →
        Esp.beatStep true now bs = bs ∧ Uno.beatStep true now bs = bs) ∧
    (∀ (bs : BeatState) (now : ℕ), Esp.beatStep true now bs ≠ bs →
        Esp.beatStep true (now + 40) (Esp.beatStep true now bs) =
          Esp.beatStep true now bs) ∧
    (∀ (bs : BeatState) (now : ℕ), Uno.beatStep true now bs ≠ bs →
        Uno.beatStep true (now + 40) (Uno.beatStep true now bs) =
          Uno.beatStep true now bs) := by
  refine ⟨fun bs now h => ⟨esp_beatStep_gate _ _ _ h, uno_beatStep_gate _ _ _ h⟩, ?_, ?_⟩
  · intro bs now h
    apply esp_beatStep_gate
    rw [esp_beatStep_lastBeat bs now h]
    have e : MIN_BEAT_MS = 250 := rfl
    omega
  · intro bs now h
    apply uno_beatStep_gate
    rw [uno_beatStep_lastBeat bs now h]
    have e : MIN_BEAT_MS = 250 := rfl
    omega

/-- C6 witness: a peak 100 ms after an anchored beat is ignored, and a
registered first beat at 300 ms swallows a second peak at 340 ms. -/
theorem refractory_gate_witness :
    (¬ MIN_BEAT_MS < 400 - (⟨300, 300, initRing 16⟩ : BeatState).lastBeatTime) ∧
    Esp.beatStep true 400 ⟨300, 300, initRing 16⟩ = ⟨300, 300, initRing 16⟩ ∧
    Esp.beatStep true 300 ⟨0, 0, initRing 16⟩ ≠ ⟨0, 0, initRing 16⟩ ∧
    Esp.beatStep true (300 + 40) (Esp.beatStep true 300 ⟨0, 0, initRing 16⟩) =
      Esp.beatStep true 300 ⟨0, 0, initRing 16⟩ := by
  refine ⟨by decide, (refractory_gate.1 _ _ (by decide)).1, by decide, ?_⟩
  exact refractory_gate.2.1 ⟨0, 0, initRing 16⟩ 300 (by decide)

-- =====================================================================
-- C8 — the first accepted beat only anchors the clock
-- =====================================================================

/-- C8: in both variants, a beat accepted while `lastBeatTime == 0` stores
nothing in the interval ring (the validator is not even consulted) and
only sets `lastBeatTime` and `lastValidBeatTime` to the current time. -/
theorem first_beat_anchors (bs : BeatState) (now : ℕ) (h0 : bs.lastBeatTime = 0)
    (hg : MIN_BEAT_MS < now) :
    Esp.beatStep true now bs =
      { bs with lastBeatTime := now, lastValidBeatTime := now } ∧
    Uno.beatStep true now bs =
      { bs with lastBeatTime := now, lastValidBeatTime := now } := by
  constructor
  · simp [Esp.beatStep, h0, hg]
  · simp [Uno.beatStep, h0, hg]

/-- C8 witness: the very first peak at 300 ms anchors the clocks and
leaves the interval ring empty. -/
theorem first_beat_anchors_witness :
    ((⟨0, 0, initRing 16⟩ : BeatState).lastBeatTime = 0 ∧ MIN_BEAT_MS < 300) ∧
    Esp.beatStep true 300 ⟨0, 0, initRing 16⟩ =
      { (⟨0, 0, initRing 16⟩ : BeatState) with
          lastBeatTime := 300, lastValidBeatTime := 300 } :=
  ⟨⟨rfl, by decide⟩, (first_beat_anchors ⟨0, 0, initRing 16⟩ 300 rfl (by decide)).1⟩

-- =====================================================================
-- C9 — the status variable never takes ST_LOW_CONF
-- =====================================================================

/-- C9: `ST_LOW_CONF` is declared but never assigned: from any state and
any input, one tick of the Esp variant emits and stores one of `ST_OK`,
`ST_FALLBACK`, `ST_NO_SENSOR`, and the boot value is `ST_NO_SENSOR`. -/
theorem status_never_low_conf :
    Esp.init.status = ST_NO_SENSOR ∧
    ∀ (st : Esp.State) (inp : TickIn),
      ((Esp.tick st inp).2.status = ST_OK ∨ (Esp.tick st inp).2.status = ST_FALLBACK ∨
        (Esp.tick st inp).2.status = ST_NO_SENSOR) ∧
      ((Esp.tick st inp).1.status = ST_OK ∨ (Esp.tick st inp).1.status = ST_FALLBACK ∨
        (Esp.tick st inp).1.status = ST_NO_SENSOR) := by
  refine ⟨rfl, fun st inp => ?_⟩
  simp only [Esp.tick, Esp.aggregate]
  split_ifs <;> simp [zeroOut]

-- =====================================================================
-- C7 — ring-buffer wraparound and reader discipline
-- =====================================================================


lemma wfRing_init (cap : ℕ) (h : 0 < cap) : wfRing cap (initRing cap) :=
  ⟨by simp [initRing], by simp [initRing], by simpa [initRing] using h, by simp [initRing]⟩

lemma wfRing_push (cap : ℕ) (r : RingBuf) (v : ℚ) (h : wfRing cap r) :
    wfRing cap (pushRing cap r v) := by
  obtain ⟨hlen, hcnt, hidx, hic⟩ := h
  by_cases hc2 : r.count < cap
  · have heq := hic hc2
    refine ⟨by simp [pushRing, hlen], ?_, ?_, ?_⟩ <;>
      simp only [pushRing] <;> split_ifs <;> omega
  · refine ⟨by simp [pushRing, hlen], ?_, ?_, ?_⟩ <;>
      simp only [pushRing] <;> split_ifs <;> omega

lemma wfRing_foldl_aux (cap : ℕ) :
    ∀ (vs : List ℚ) (r : RingBuf), wfRing cap r → wfRing cap (vs.foldl (pushRing cap) r) := by
  intro vs
  induction vs with
  | nil => intro r hr; simpa using hr
  | cons v vs ih =>
    intro r hr
    rw [List.foldl_cons]
    exact ih _ (wfRing_push cap r v hr)

lemma count_foldl (cap : ℕ) :
    ∀ (vs : List ℚ) (r : RingBuf), r.count ≤ cap →
      (vs.foldl (pushRing cap) r).count = min (r.count + vs.length) cap := by
  intro vs
  induction vs with
  | nil => intro r hr; simp; omega
  | cons v vs ih =>
    intro r hr
    rw [List.foldl_cons]
    have hpc : (pushRing cap r v).count = if r.count < cap then r.count + 1 else r.count := rfl
    rw [ih _ (by rw [hpc]; split_ifs <;> omega), hpc]
    split_ifs <;> simp [List.length_cons] <;> omega

lemma set_append_len (w : ℚ) :
    ∀ (l m : List ℚ), (l ++ m).set l.length w = l ++ m.set 0 w := by
  intro l
  induction l with
  | nil => intro m; simp
  | cons a t ih => intro m; simp [ih]

lemma foldl_push_fill (cap : ℕ) :
    ∀ (ws : List ℚ), ws.length ≤ cap →
      ws.foldl (pushRing cap) (initRing cap) =
        ⟨ws ++ List.replicate (cap - ws.length) 0, ws.length % cap, ws.length⟩ := by
  intro ws
  induction ws using List.reverseRecOn with
  | nil => intro _; simp [initRing]
  | append_singleton ws w ih =>
    intro hlen
    rw [List.length_append, List.length_singleton] at hlen
    have hn : ws.length < cap := by omega
    rw [List.foldl_append, ih (by omega)]
    simp only [List.foldl_cons, List.foldl_nil, pushRing, Nat.mod_eq_of_lt hn]
    have hrep : cap - ws.length = (cap - (ws.length + 1)) + 1 := by omega
    rw [RingBuf.mk.injEq]
    refine ⟨?_, ?_, ?_⟩
    · rw [hrep, List.replicate_succ, set_append_len]
      simp [List.length_append]
    · rw [List.length_append, List.length_singleton]
      split_ifs with h
      · have : ws.length + 1 = cap := by omega
        rw [this, Nat.mod_self]
      · rw [Nat.mod_eq_of_lt (by omega)]
    · rw [List.length_append, List.length_singleton, if_pos hn]

lemma foldl_push_wrap (cap : ℕ) (hcap : 0 < cap) (vs : List ℚ)
    (hlen : vs.length = cap + 1) :
    (vs.foldl (pushRing cap) (initRing cap)).count = cap ∧
    ((vs.foldl (pushRing cap) (initRing cap)).buf).Perm (vs.drop 1) := by
  have hsplit : vs.take cap ++ vs.drop cap = vs := List.take_append_drop cap vs
  have hdl : (vs.drop cap).length = 1 := by rw [List.length_drop]; omega
  obtain ⟨w, hw⟩ := List.length_eq_one.mp hdl
  have htl : (vs.take cap).length = cap := by rw [List.length_take]; omega
  obtain ⟨a, t, hat⟩ : ∃ a t, vs.take cap = a :: t := by
    cases hx : vs.take cap with
    | nil => rw [hx] at htl; simp at htl; omega
    | cons a t => exact ⟨a, t, rfl⟩
  rw [← hsplit, hw, List.foldl_append, foldl_push_fill cap _ (le_of_eq htl), htl]
  simp only [Nat.sub_self, List.replicate_zero, List.append_nil, Nat.mod_self,
    List.foldl_cons, List.foldl_nil, pushRing]
  constructor
  · simp
  · rw [hat]
    simp only [List.set_cons_zero, List.cons_append, List.drop_succ_cons, List.drop_zero]
    exact (List.perm_append_singleton w t).symm

lemma readers_frame (r r2 : RingBuf) (hc : r.count = r2.count)
    (hb : r.buf.take r.count = r2.buf.take r2.count) :
    Esp.computeBPM r = Esp.computeBPM r2 ∧ Esp.medianBPM r = Esp.medianBPM r2 ∧
      Esp.avgBPM r = Esp.avgBPM r2 := by
  refine ⟨?_, ?_, ?_⟩
  · simp only [Esp.computeBPM]; rw [hb, hc]
  · simp only [Esp.medianBPM]; rw [hb, hc]
  · simp only [Esp.avgBPM]; rw [hb, hc]

/-- C7: for the fixed-capacity rings (capacities 16, 5 and 8 are the three
instances): pushing values from the zeroed initial ring keeps the cursor in
`[0, cap)` and the count at `min pushes cap`, pushing `cap + 1` values
leaves exactly the `cap` most-recent values in the buffer (the oldest one
overwritten), and the readers `computeBPM`, `medianBPM`, `avgBPM` depend
only on the slots below the fill count, so no uninitialised slot
influences them before the buffer first fills. -/
theorem ring_wraparound_and_readers :
    (∀ (cap : ℕ) (vs : List ℚ), 0 < cap →
        wfRing cap (vs.foldl (pushRing cap) (initRing cap)) ∧
        (vs.foldl (pushRing cap) (initRing cap)).count = min vs.length cap) ∧
    (∀ (cap : ℕ) (vs : List ℚ), 0 < cap → vs.length = cap + 1 →
        (vs.foldl (pushRing cap) (initRing cap)).count = cap ∧
        ((vs.foldl (pushRing cap) (initRing cap)).buf).Perm (vs.drop 1)) ∧
    (∀ r r2 : RingBuf, r.count = r2.count →
        r.buf.take r.count = r2.buf.take r2.count →
        Esp.computeBPM r = Esp.computeBPM r2 ∧ Esp.medianBPM r = Esp.medianBPM r2 ∧
          Esp.avgBPM r = Esp.avgBPM r2) := by
  refine ⟨fun cap vs h => ⟨wfRing_foldl_aux cap vs _ (wfRing_init cap h), ?_⟩,
          fun cap vs h hl => foldl_push_wrap cap h vs hl,
          readers_frame⟩
  have hcf := count_foldl cap vs (initRing cap) (by simp [initRing])
  simpa [initRing] using hcf

/-- C7 witness: seventeen pushes into the 16-slot interval ring retain the
sixteen most-recent values; two rings agreeing on their occupied slots are
indistinguishable to `medianBPM`. -/
theorem ring_wraparound_and_readers_witness :
    (0 < 16 ∧
      (([1, 2, 3, 4, 5, 6, 7, 8, 9, 10, 11, 12, 13, 14, 15, 16, 17] :
          List ℚ).foldl (pushRing 16) (initRing 16)).count = min 17 16) ∧
    ((([1, 2, 3, 4, 5, 6, 7, 8, 9, 10, 11, 12, 13, 14, 15, 16, 17] :
          List ℚ).foldl (pushRing 16) (initRing 16)).buf).Perm
      (([1, 2, 3, 4, 5, 6, 7, 8, 9, 10, 11, 12, 13, 14, 15, 16, 17] : List ℚ).drop 1) ∧
    Esp.medianBPM ⟨[50, 60, 0, 0, 0], 2, 2⟩ = Esp.medianBPM ⟨[50, 60, 9, 9, 9], 2, 2⟩ :=
  ⟨⟨by decide,
    (ring_wraparound_and_readers.1 16 _ (by decide)).2⟩,
   (ring_wraparound_and_readers.2.1 16 _ (by decide) (by decide)).2,
   (ring_wraparound_and_readers.2.2 ⟨[50, 60, 0, 0, 0], 2, 2⟩ ⟨[50, 60, 9, 9, 9], 2, 2⟩
      rfl (by decide)).2.1⟩

-- =====================================================================
-- Mean / content bounds machinery
-- =====================================================================



lemma sum_le_len_mul (b : ℚ) :
    ∀ l : List ℚ, (∀ x ∈ l, x ≤ b) → l.sum ≤ (l.length : ℚ) * b := by
  intro l
  induction l with
  | nil => intro _; simp
  | cons a t ih =>
    intro h
    rw [List.sum_cons, List.length_cons]
    have ha := h a (List.mem_cons_self a t)
    have ht := ih (fun x hx => h x (List.mem_cons_of_mem a hx))
    push_cast
    linarith

lemma len_mul_le_sum (b : ℚ) :
    ∀ l : List ℚ, (∀ x ∈ l, b ≤ x) → (l.length : ℚ) * b ≤ l.sum := by
  intro l
  induction l with
  | nil => intro _; simp
  | cons a t ih =>
    intro h
    rw [List.sum_cons, List.length_cons]
    have ha := h a (List.mem_cons_self a t)
    have ht := ih (fun x hx => h x (List.mem_cons_of_mem a hx))
    push_cast
    linarith

lemma mean_bounds (l : List ℚ) (a b : ℚ) (hne : l ≠ [])
    (h : ∀ x ∈ l, a ≤ x ∧ x ≤ b) :
    a ≤ l.sum / (l.length : ℚ) ∧ l.sum / (l.length : ℚ) ≤ b := by
  have hlen : 0 < (l.length : ℚ) := by
    have := List.length_pos.mpr hne
    exact_mod_cast this
  constructor
  · rw [le_div_iff₀ hlen]
    have := len_mul_le_sum a l (fun x hx => (h x hx).1)
    linarith
  · rw [div_le_iff₀ hlen]
    have := sum_le_len_mul b l (fun x hx => (h x hx).2)
    linarith

lemma take_succ_set : ∀ (l : List ℚ) (n : ℕ), n < l.length →
    ∀ v : ℚ, (l.set n v).take (n + 1) = l.take n ++ [v] := by
  intro l
  induction l with
  | nil => intro n h; simp at h
  | cons a t ih =>
    intro n h v
    cases n with
    | zero => simp
    | succ m =>
      simp only [List.set_cons_succ, List.take_succ_cons, List.cons_append]
      rw [ih m (by simpa using h) v]

lemma mem_set_or : ∀ (l : List ℚ) (n : ℕ) (v x : ℚ), x ∈ l.set n v → x ∈ l ∨ x = v := by
  intro l
  induction l with
  | nil => intro n v x hx; simp at hx
  | cons a t ih =>
    intro n v x hx
    cases n with
    | zero =>
      rw [List.set_cons_zero] at hx
      rcases List.mem_cons.mp hx with hy | hy
      · right; exact hy
      · left; exact List.mem_cons_of_mem a hy
    | succ m =>
      rw [List.set_cons_succ] at hx
      rcases List.mem_cons.mp hx with hy | hy
      · rw [hy]; left; exact List.mem_cons_self a t
      · rcases ih m v x hy with hz | hz
        · left; exact List.mem_cons_of_mem a hz
        · right; exact hz

lemma ringAll_push (cap : ℕ) (P : ℚ → Prop) (r : RingBuf) (v : ℚ)
    (hwf : wfRing cap r) (h : ringAll P r) (hv : P v) :
    ringAll P (pushRing cap r v) := by
  obtain ⟨hlen, hcnt, hidx, hic⟩ := hwf
  intro x hx
  by_cases hc : r.count < cap
  · have heq := hic hc
    have hcount : (pushRing cap r v).count = r.count + 1 := by simp [pushRing, hc]
    have hbuf : (pushRing cap r v).buf = r.buf.set r.count v := by
      simp [pushRing, heq]
    rw [hcount, hbuf, take_succ_set r.buf r.count (by omega) v] at hx
    rcases List.mem_append.mp hx with hx | hx
    · exact h x hx
    · rw [List.mem_singleton.mp hx]; exact hv
  · have hcount : (pushRing cap r v).count = r.count := by simp [pushRing, hc]
    have hbuf : (pushRing cap r v).buf = r.buf.set r.idx v := rfl
    have hfull : r.count = r.buf.length := by omega
    rw [hcount, hbuf] at hx
    have hx2 : x ∈ (r.buf.set r.idx v) := by
      have hle : (r.buf.set r.idx v).length ≤ r.count := by simp [hfull]
      rw [List.take_of_length_le hle] at hx
      exact hx
    rcases mem_set_or r.buf r.idx v x hx2 with hy | hy
    · refine h x ?_
      rw [List.take_of_length_le (le_of_eq hfull.symm)]
      exact hy
    · rw [hy]; exact hv

lemma pushRing_count_pos (cap : ℕ) (hcap : 0 < cap) (r : RingBuf) (v : ℚ) :
    0 < (pushRing cap r v).count := by
  simp only [pushRing]
  split_ifs <;> omega

lemma pushRing_count_ge (cap : ℕ) (r : RingBuf) (v : ℚ) :
    r.count ≤ (pushRing cap r v).count := by
  simp only [pushRing]
  split_ifs <;> omega

lemma esp_beatStep_ring (peak : Bool) (now : ℕ) (bs : BeatState)
    (hwf : wfRing 16 bs.intervals) (hall : ringAll Esp.validInterval bs.intervals) :
    wfRing 16 (Esp.beatStep peak now bs).intervals ∧
    ringAll Esp.validInterval (Esp.beatStep peak now bs).intervals ∧
    bs.intervals.count ≤ (Esp.beatStep peak now bs).intervals.count := by
  simp only [Esp.beatStep]
  split_ifs with h1 h2 h3 h4
  · exact ⟨hwf, hall, le_rfl⟩
  · exact ⟨hwf, hall, le_rfl⟩
  · rcases h4 with h4 | h4
    · exact absurd h4 h2
    · exact ⟨wfRing_push 16 _ _ hwf, ringAll_push 16 _ _ _ hwf hall h4,
        pushRing_count_ge 16 _ _⟩
  · exact ⟨hwf, hall, le_rfl⟩
  · exact ⟨hwf, hall, le_rfl⟩

lemma validInterval_bounds (v : ℚ) (h : Esp.validInterval v) :
    300 ≤ v ∧ v ≤ 12000 / 7 := by
  obtain ⟨h0, h1, h2⟩ := h
  have e1 : MIN_VALID_BPM = 35 := rfl
  have e2 : MAX_VALID_BPM = 200 := rfl
  rw [e1, le_div_iff₀ h0] at h1
  rw [e2, div_le_iff₀ h0] at h2
  constructor <;> linarith

lemma computeBPM_range (r : RingBuf) (hwf : wfRing 16 r)
    (hall : ringAll Esp.validInterval r) (hc : 0 < r.count) :
    MIN_VALID_BPM ≤ Esp.computeBPM r ∧ Esp.computeBPM r ≤ MAX_VALID_BPM := by
  have hlen : (r.buf.take r.count).length = r.count := by
    rw [List.length_take]
    have := hwf.1
    have := hwf.2.1
    omega
  have hne : r.buf.take r.count ≠ [] := by
    intro hnil
    rw [hnil] at hlen
    simp at hlen
    omega
  have hmb := mean_bounds (r.buf.take r.count) 300 (12000 / 7) hne
    (fun x hx => validInterval_bounds x (hall x hx))
  rw [hlen] at hmb
  have hmean0 : 0 < (r.buf.take r.count).sum / (r.count : ℚ) :=
    lt_of_lt_of_le (by norm_num) hmb.1
  simp only [Esp.computeBPM, if_neg hc.ne']
  rw [if_neg (not_le.mpr hmean0)]
  have e1 : MIN_VALID_BPM = 35 := rfl
  have e2 : MAX_VALID_BPM = 200 := rfl
  rw [e1, e2]
  constructor
  · rw [le_div_iff₀ hmean0]
    linarith [hmb.2]
  · rw [div_le_iff₀ hmean0]
    linarith [hmb.1]

lemma avgBPM_range (cap : ℕ) (r : RingBuf) (hwf : wfRing cap r)
    (hall : ringAll inRangeBPM r) (hc : 0 < r.count) :
    inRangeBPM (Esp.avgBPM r) := by
  have hlen : (r.buf.take r.count).length = r.count := by
    rw [List.length_take]
    have := hwf.1
    have := hwf.2.1
    omega
  have hne : r.buf.take r.count ≠ [] := by
    intro hnil
    rw [hnil] at hlen
    simp at hlen
    omega
  have hmb := mean_bounds (r.buf.take r.count) MIN_VALID_BPM MAX_VALID_BPM hne
    (fun x hx => hall x hx)
  rw [hlen] at hmb
  simp only [Esp.avgBPM, if_neg hc.ne']
  exact hmb

lemma medianBPM_mem (r : RingBuf) (hc : 0 < r.count) (hl : r.count ≤ r.buf.length) :
    Esp.medianBPM r ∈ r.buf.take r.count := by
  simp only [Esp.medianBPM, if_neg hc.ne']
  have hplen : (Esp.insSort (r.buf.take r.count)).length = (r.buf.take r.count).length :=
    (Esp.insSort_perm _).length_eq
  have hlt : r.count / 2 < (Esp.insSort (r.buf.take r.count)).length := by
    rw [hplen, List.length_take]
    have := Nat.div_lt_self hc (by norm_num : 1 < 2)
    omega
  exact (Esp.insSort_perm _).mem_iff.mp (getD_mem_of_lt _ _ hlt)

lemma medianBPM_range (cap : ℕ) (r : RingBuf) (hwf : wfRing cap r)
    (hall : ringAll inRangeBPM r) (hc : 0 < r.count) :
    inRangeBPM (Esp.medianBPM r) := by
  refine hall _ (medianBPM_mem r hc ?_)
  have := hwf.1
  have := hwf.2.1
  omega

lemma constrainQ_range (x : ℚ) :
    inRangeBPM (constrainQ x MIN_VALID_BPM MAX_VALID_BPM) := by
  have e1 : MIN_VALID_BPM = 35 := rfl
  have e2 : MAX_VALID_BPM = 200 := rfl
  simp only [constrainQ, inRangeBPM, e1, e2]
  split_ifs <;> constructor <;> linarith

lemma esp_jitter_range (now lj : ℕ) (rand : ℤ) (x : ℚ) (hx : inRangeBPM x) :
    inRangeBPM (Esp.jitterStep now lj rand x).2 := by
  simp only [Esp.jitterStep]
  split_ifs
  · exact constrainQ_range _
  · exact hx

lemma blend_range (a m : ℚ) (ha : inRangeBPM a) (hm : inRangeBPM m) :
    inRangeBPM (a * 0.6 + m * 0.4) := by
  obtain ⟨h1, h2⟩ := ha
  obtain ⟨h3, h4⟩ := hm
  have e1 : MIN_VALID_BPM = 35 := rfl
  have e2 : MAX_VALID_BPM = 200 := rfl
  rw [e1] at h1 h3
  rw [e2] at h2 h4
  unfold inRangeBPM
  rw [e1, e2]
  constructor <;> linarith

-- =====================================================================
-- The Esp run invariant
-- =====================================================================


lemma inv_init : Inv Esp.init := by decide

lemma computeBPM_zero (r : RingBuf) (h : r.count = 0) : Esp.computeBPM r = 0 := by
  simp [Esp.computeBPM, h]

lemma aggregate_inv (st1 : Esp.State) (inp : TickIn) (filtered : ℚ) (h : Inv st1) :
    Inv (Esp.aggregate st1 inp filtered).1 ∧
    (((Esp.aggregate st1 inp filtered).2.status = ST_OK ∨
        (Esp.aggregate st1 inp filtered).2.status = ST_FALLBACK) →
      inRangeBPM (Esp.aggregate st1 inp filtered).2.bpm) ∧
    ((st1.beat.intervals.count = 0 → st1.lastGoodBPM = 0) →
      ((Esp.aggregate st1 inp filtered).2.status ≠ ST_FALLBACK ∧
       ((Esp.aggregate st1 inp filtered).1.beat.intervals.count = 0 →
         (Esp.aggregate st1 inp filtered).1.lastGoodBPM = 0))) := by
  obtain ⟨hbw, hba, hhw, hha, haw, haa, hlg⟩ := h
  have hcand0 : st1.beat.intervals.count = 0 → Esp.computeBPM st1.beat.intervals = 0 :=
    computeBPM_zero _
  simp only [Esp.aggregate]
  split_ifs with hval hmed hfb
  · -- OK branch, median positive: blended value
    have hwf5 := wfRing_push BPM_MEDIAN_WINDOW st1.bpmHistory (Esp.computeBPM st1.beat.intervals) hhw
    have hha5 := ringAll_push BPM_MEDIAN_WINDOW inRangeBPM st1.bpmHistory (Esp.computeBPM st1.beat.intervals) hhw hha hval
    have hwf8 := wfRing_push BPM_AVG_WINDOW st1.bpmAvgWindow (Esp.computeBPM st1.beat.intervals) haw
    have haa8 := ringAll_push BPM_AVG_WINDOW inRangeBPM st1.bpmAvgWindow (Esp.computeBPM st1.beat.intervals) haw haa hval
    have hc5 : 0 < (pushRing BPM_MEDIAN_WINDOW st1.bpmHistory
        (Esp.computeBPM st1.beat.intervals)).count :=
      pushRing_count_pos BPM_MEDIAN_WINDOW (by decide) _ _
    have hc8 : 0 < (pushRing BPM_AVG_WINDOW st1.bpmAvgWindow
        (Esp.computeBPM st1.beat.intervals)).count :=
      pushRing_count_pos BPM_AVG_WINDOW (by decide) _ _
    have hfb0 := avgBPM_range BPM_AVG_WINDOW _ hwf8 haa8 hc8
    have hmedr := medianBPM_range BPM_MEDIAN_WINDOW _ hwf5 hha5 hc5
    have hfinal := blend_range _ _ hfb0 hmedr
    refine ⟨⟨hbw, hba, hwf5, hha5, hwf8, haa8, Or.inr hfinal⟩,
            fun _ => esp_jitter_range _ _ _ _ hfinal, fun hA => ⟨fun hx => (nomatch hx), ?_⟩⟩
    intro hc0
    exfalso
    rw [hcand0 hc0] at hval
    have e1 : MIN_VALID_BPM = 35 := rfl
    rw [e1] at hval
    exact absurd hval.1 (by norm_num)
  · -- OK branch, median not positive: plain window average
    have hwf5 := wfRing_push BPM_MEDIAN_WINDOW st1.bpmHistory (Esp.computeBPM st1.beat.intervals) hhw
    have hha5 := ringAll_push BPM_MEDIAN_WINDOW inRangeBPM st1.bpmHistory (Esp.computeBPM st1.beat.intervals) hhw hha hval
    have hwf8 := wfRing_push BPM_AVG_WINDOW st1.bpmAvgWindow (Esp.computeBPM st1.beat.intervals) haw
    have haa8 := ringAll_push BPM_AVG_WINDOW inRangeBPM st1.bpmAvgWindow (Esp.computeBPM st1.beat.intervals) haw haa hval
    have hc8 : 0 < (pushRing BPM_AVG_WINDOW st1.bpmAvgWindow
        (Esp.computeBPM st1.beat.intervals)).count :=
      pushRing_count_pos BPM_AVG_WINDOW (by decide) _ _
    have hfb0 := avgBPM_range BPM_AVG_WINDOW _ hwf8 haa8 hc8
    refine ⟨⟨hbw, hba, hwf5, hha5, hwf8, haa8, Or.inr hfb0⟩,
            fun _ => esp_jitter_range _ _ _ _ hfb0, fun hA => ⟨fun hx => (nomatch hx), ?_⟩⟩
    intro hc0
    exfalso
    rw [hcand0 hc0] at hval
    have e1 : MIN_VALID_BPM = 35 := rfl
    rw [e1] at hval
    exact absurd hval.1 (by norm_num)
  · -- FALLBACK branch
    have hlg2 : inRangeBPM st1.lastGoodBPM := by
      rcases hlg with h0 | hr
      · exact absurd (h0 ▸ hfb.2) (lt_irrefl 0)
      · exact hr
    refine ⟨⟨hbw, hba, hhw, hha, haw, haa, hlg⟩,
            fun _ => esp_jitter_range _ _ _ _ hlg2, fun hA => ?_⟩
    exfalso
    have hcne : st1.beat.intervals.count ≠ 0 := by
      intro hc0
      exact absurd (hA hc0) (ne_of_gt hfb.2)
    exact hval (computeBPM_range st1.beat.intervals hbw hba (Nat.pos_of_ne_zero hcne))
  · -- NO_SENSOR branch
    refine ⟨⟨hbw, hba, hhw, hha, haw, haa, hlg⟩, ?_, fun hA => ⟨fun hx => (nomatch hx), hA⟩⟩
    intro hx
    rcases hx with hx | hx <;> exact nomatch hx

lemma condStep_beat (st : Esp.State) (inp : TickIn) :
    ∃ pk : Bool, (Esp.condStep st inp).1.beat = Esp.beatStep pk inp.now st.beat :=
  ⟨_, rfl⟩

lemma tick_inv (st : Esp.State) (inp : TickIn) (h : Inv st) :
    Inv (Esp.tick st inp).1 ∧
    (((Esp.tick st inp).2.status = ST_OK ∨ (Esp.tick st inp).2.status = ST_FALLBACK) →
      inRangeBPM (Esp.tick st inp).2.bpm) ∧
    ((st.beat.intervals.count = 0 → st.lastGoodBPM = 0) →
      ((Esp.tick st inp).2.status ≠ ST_FALLBACK ∧
       ((Esp.tick st inp).1.beat.intervals.count = 0 →
         (Esp.tick st inp).1.lastGoodBPM = 0))) := by
  by_cases hraw : inp.raw < 30
  · simp only [Esp.tick, if_pos hraw]
    refine ⟨h, ?_, fun hA => ⟨fun hx => (nomatch hx), hA⟩⟩
    intro hx
    rcases hx with hx | hx <;> exact nomatch hx
  · simp only [Esp.tick, if_neg hraw]
    obtain ⟨pk, hbeat⟩ := condStep_beat st inp
    have hb := esp_beatStep_ring pk inp.now st.beat h.1 h.2.1
    have hinv1 : Inv (Esp.condStep st inp).1 := by
      refine ⟨?_, ?_, h.2.2.1, h.2.2.2.1, h.2.2.2.2.1, h.2.2.2.2.2.1, h.2.2.2.2.2.2⟩
      · rw [hbeat]; exact hb.1
      · rw [hbeat]; exact hb.2.1
    have hagg := aggregate_inv (Esp.condStep st inp).1 inp (Esp.condStep st inp).2 hinv1
    refine ⟨hagg.1, hagg.2.1, fun hA => hagg.2.2 ?_⟩
    intro hc0
    have hcc : st.beat.intervals.count = 0 := by
      have hle := hb.2.2
      rw [hbeat] at hc0
      omega
    exact hA hcc

lemma run_inv (ins : List TickIn) :
    ∀ st : Esp.State, Inv st →
      Inv (Esp.run st ins).1 ∧
      (∀ o ∈ (Esp.run st ins).2,
        (o.status = ST_OK ∨ o.status = ST_FALLBACK) → inRangeBPM o.bpm) := by
  induction ins with
  | nil =>
    intro st h
    exact ⟨h, by intro o ho; simp [Esp.run] at ho⟩
  | cons i is ih =>
    intro st h
    have ht := tick_inv st i h
    have hr := ih (Esp.tick st i).1 ht.1
    refine ⟨hr.1, ?_⟩
    intro o ho
    simp only [Esp.run] at ho
    rcases List.mem_cons.mp ho with hy | hy
    · rw [hy]; exact ht.2.1
    · exact hr.2 o hy

lemma run_no_fb (ins : List TickIn) :
    ∀ st : Esp.State, Inv st → (st.beat.intervals.count = 0 → st.lastGoodBPM = 0) →
      ((Esp.run st ins).1.beat.intervals.count = 0 →
        (Esp.run st ins).1.lastGoodBPM = 0) ∧
      ∀ o ∈ (Esp.run st ins).2, o.status ≠ ST_FALLBACK := by
  induction ins with
  | nil =>
    intro st h hA
    exact ⟨hA, by intro o ho; simp [Esp.run] at ho⟩
  | cons i is ih =>
    intro st h hA
    have ht := tick_inv st i h
    have hstep := ht.2.2 hA
    have hr := ih (Esp.tick st i).1 ht.1 hstep.2
    refine ⟨hr.1, ?_⟩
    intro o ho
    simp only [Esp.run] at ho
    rcases List.mem_cons.mp ho with hy | hy
    · rw [hy]; exact hstep.1
    · exact hr.2 o hy

-- =====================================================================
-- Concrete input sequences
-- =====================================================================


-- =====================================================================
-- C10 — emitted OK / FALLBACK values stay inside [35, 200]
-- =====================================================================

/-- C10: in every run of the Esp variant from boot, every emitted tuple
whose status is `OK` or `FALLBACK` carries a `finalBPM` inside
`[MIN_VALID_BPM, MAX_VALID_BPM]`: the `OK` value is the 0.6/0.4 blend of a
window mean and median of candidates each in band, the `FALLBACK` value is
a previously stored `lastGoodBPM > 0` which is always in band, and the HRV
jitter clamps its perturbation back into the band whenever it fires. -/
theorem esp_emitted_bpm_in_range :
    ∀ (ins : List TickIn), ∀ o ∈ (Esp.run Esp.init ins).2,
      (o.status = ST_OK ∨ o.status = ST_FALLBACK) →
      MIN_VALID_BPM ≤ o.bpm ∧ o.bpm ≤ MAX_VALID_BPM :=
  fun ins => (run_inv ins Esp.init inv_init).2

set_option maxRecDepth 8000 in
unseal Rat.mul Rat.add Rat.sub Rat.inv Rat.ofScientific in
/-- C10 witness: the `OK` tuple of the 6th tick of the synthetic run
carries 100 BPM, inside the band. -/
theorem esp_emitted_bpm_in_range_witness :
    ((Esp.run Esp.init c1run).2.getD 5 zeroOut) ∈ (Esp.run Esp.init c1run).2 ∧
    ((Esp.run Esp.init c1run).2.getD 5 zeroOut).status = ST_OK ∧
    MIN_VALID_BPM ≤ ((Esp.run Esp.init c1run).2.getD 5 zeroOut).bpm ∧
      ((Esp.run Esp.init c1run).2.getD 5 zeroOut).bpm ≤ MAX_VALID_BPM :=
  ⟨by decide, by decide,
   esp_emitted_bpm_in_range c1run _ (by decide) (by decide)⟩

-- =====================================================================
-- C1 — the FALLBACK freeze scenario is dead code in the Esp variant
-- =====================================================================

set_option maxRecDepth 8000 in
unseal Rat.mul Rat.add Rat.sub Rat.inv Rat.ofScientific in
/-- C1 (code-bug evidence): starting from boot, no tick of the Esp variant
ever emits `ST_FALLBACK` — once a tick is `OK` the interval ring is
non-empty, and a non-empty ring always yields a candidate inside
`[35, 200]`, so every later finger-on tick takes the `OK` branch again.
The concrete run shows the divergence: after the `OK` tick at 900 ms, the
tick at 7000 ms (6100 ms past the last valid beat, beyond
`FALLBACK_TIMEOUT_MS`) still emits `ST_OK` with the stale 100 BPM instead
of the fallback-freeze-then-`NO_SENSOR` behaviour the claim describes. -/
theorem esp_fallback_dead_and_stale_ok :
    (∀ (ins : List TickIn), ∀ o ∈ (Esp.run Esp.init ins).2,
        o.status ≠ ST_FALLBACK) ∧
    (Esp.run Esp.init c1run).2.map Out.status =
      [ST_NO_SENSOR, ST_NO_SENSOR, ST_NO_SENSOR, ST_NO_SENSOR, ST_NO_SENSOR,
        ST_OK, ST_OK] ∧
    ((Esp.run Esp.init c1run).2.getD 5 zeroOut).bpm = 100 ∧
    ((Esp.run Esp.init c1run).2.getD 6 zeroOut).bpm = 100 ∧
    (Esp.run Esp.init c1run).1.beat.lastValidBeatTime = 900 ∧
    FALLBACK_TIMEOUT_MS < 7000 - 900 ∧
    (Esp.run Esp.init c1run).1.status = ST_OK := by
  refine ⟨fun ins o ho => (run_no_fb ins Esp.init inv_init (fun _ => rfl)).2 o ho,
          by decide, by decide, by decide, by decide, by decide, by decide⟩

unseal Rat.mul Rat.add Rat.sub Rat.inv Rat.ofScientific in
/-- C1 witness: the zeroed tuple of a first boot tick is in the run's
output and is indeed not `ST_FALLBACK`. -/
theorem esp_fallback_dead_and_stale_ok_witness :
    zeroOut ∈ (Esp.run Esp.init [⟨31, 20, 0, 0, 0, 0⟩]).2 ∧
    zeroOut.status ≠ ST_FALLBACK :=
  ⟨by decide,
   esp_fallback_dead_and_stale_ok.1 [⟨31, 20, 0, 0, 0, 0⟩] zeroOut (by decide)⟩

-- =====================================================================
-- C3 — guards of the FALLBACK branch
-- =====================================================================

/-- C3 (amended): in the Esp variant a tick emits `ST_FALLBACK` only when
both `now - lastValidBeatTime < FALLBACK_TIMEOUT_MS` and
`lastGoodBPM > 0` hold; in the Pulsebyuno variant the branch checks only
the timeout — the `lastGoodBPM > 0` conjunct is absent there, which is
what lets it emit `FALLBACK` before any beat was ever accepted. -/
theorem fallback_branch_guards :
    (∀ (st : Esp.State) (inp : TickIn),
        (Esp.tick st inp).2.status = ST_FALLBACK →
        inp.now - (Esp.tick st inp).1.beat.lastValidBeatTime < FALLBACK_TIMEOUT_MS ∧
        0 < st.lastGoodBPM) ∧
    (∀ (st : Uno.State) (inp : TickIn),
        (Uno.tick st inp).2.status = ST_FALLBACK →
        inp.now - (Uno.tick st inp).1.beat.lastValidBeatTime < FALLBACK_TIMEOUT_MS) := by
  constructor
  · intro st inp hs
    simp only [Esp.tick, Esp.aggregate] at hs ⊢
    split_ifs at hs ⊢ with h1 h2 h3 <;> first | exact h3 | exact (nomatch hs)
  · intro st inp hs
    simp only [Uno.tick, Uno.aggregate] at hs ⊢
    split_ifs at hs ⊢ with h1 h2 h3 <;> first | exact h3 | exact (nomatch hs)

unseal Rat.mul Rat.add Rat.sub Rat.inv Rat.ofScientific in
/-- C3 witness: the very first Pulsebyuno tick with a finger present takes
the FALLBACK branch, and indeed the timeout condition holds for it. -/
theorem fallback_branch_guards_witness :
    (Uno.tick Uno.init ⟨500, 100, 0, 0, 0, 0⟩).2.status = ST_FALLBACK ∧
    100 - (Uno.tick Uno.init ⟨500, 100, 0, 0, 0, 0⟩).1.beat.lastValidBeatTime <
      FALLBACK_TIMEOUT_MS :=
  ⟨by decide, fallback_branch_guards.2 Uno.init ⟨500, 100, 0, 0, 0, 0⟩ (by decide)⟩

unseal Rat.mul Rat.add Rat.sub Rat.inv Rat.ofScientific in
/-- C3 counterexample: on the very first Pulsebyuno tick after boot, with
`raw = 500` at 100 ms, no beat has ever been accepted (the beat clock is
still 0) yet the tick emits status `FALLBACK` with `finalBPM = 0` — the
claim says no tick may emit FALLBACK before any beat was accepted. -/
theorem uno_fallback_before_any_beat :
    (Uno.run Uno.init [⟨500, 100, 0, 0, 0, 0⟩]).2.map Out.status = [ST_FALLBACK] ∧
    (Uno.run Uno.init [⟨500, 100, 0, 0, 0, 0⟩]).1.beat.lastBeatTime = 0 ∧
    ((Uno.run Uno.init [⟨500, 100, 0, 0, 0, 0⟩]).2.getD 0 zeroOut).bpm = 0 ∧
    Uno.init.lastGoodBPM = 0 := by
  decide

-- =====================================================================
-- C4 — below the presence floor the pipeline is skipped
-- =====================================================================

/-- C4 (amended): a tick whose raw sample is below 30 emits the zeroed /
"calculating" tuple and leaves the whole pipeline state untouched; the Esp
variant additionally sets the `status` variable to `ST_NO_SENSOR`, while
the Pulsebyuno variant leaves `status` entirely unchanged.  Ten
consecutive `raw = 20` ticks of the Esp variant emit the zeroed tuple
every tick with beat-clock state unaffected. -/
theorem low_raw_skips_pipeline :
    (∀ (st : Esp.State) (inp : TickIn), inp.raw < 30 →
        Esp.tick st inp = ({ st with status := ST_NO_SENSOR }, zeroOut)) ∧
    (∀ (st : Uno.State) (inp : TickIn), inp.raw < 30 →
        Uno.tick st inp = (st, zeroOut)) ∧
    (∀ st : Esp.State,
        Esp.run st lowRun =
          ({ st with status := ST_NO_SENSOR }, List.replicate 10 zeroOut)) := by
  refine ⟨fun st inp h => by simp [Esp.tick, h],
          fun st inp h => by simp [Uno.tick, h], fun st => rfl⟩

/-- C4 witness: a boot tick with `raw = 20` in both variants. -/
theorem low_raw_skips_pipeline_witness :
    ((20 : ℤ) < 30 ∧
      Esp.tick Esp.init ⟨20, 0, 0, 0, 0, 0⟩ =
        ({ Esp.init with status := ST_NO_SENSOR }, zeroOut)) ∧
    Uno.tick Uno.init ⟨20, 0, 0, 0, 0, 0⟩ = (Uno.init, zeroOut) :=
  ⟨⟨by decide, low_raw_skips_pipeline.1 Esp.init ⟨20, 0, 0, 0, 0, 0⟩ (by decide)⟩,
   low_raw_skips_pipeline.2.1 Uno.init ⟨20, 0, 0, 0, 0, 0⟩ (by decide)⟩

unseal Rat.mul Rat.add Rat.sub Rat.inv Rat.ofScientific in
/-- C4 counterexample: in Pulsebyuno, a tick after the first FALLBACK tick
with `raw = 20` emits the zeroed tuple but does NOT set the status
variable to `ST_NO_SENSOR` — it stays `ST_FALLBACK`. -/
theorem uno_low_raw_leaves_status :
    ((Uno.run Uno.init [⟨500, 100, 0, 0, 0, 0⟩, ⟨20, 220, 0, 0, 0, 0⟩]).2.getD 1 zeroOut
        = zeroOut) ∧
    (Uno.run Uno.init [⟨500, 100, 0, 0, 0, 0⟩, ⟨20, 220, 0, 0, 0, 0⟩]).1.status =
      ST_FALLBACK ∧
    ST_FALLBACK ≠ ST_NO_SENSOR := by
  decide

end HRM
